import Mathlib

/-!
kyber-tools: selection parsing, container probes, launch-command building.

A shallow embedding of the pure logic of the three command-line tools
(`kyber-log-manager`, `kyber-server-launcher` and the module updater) together
with the properties proved about it.

Go strings are modelled as lists of runes (`Str`).  The Go standard-library
functions the tools call (`strings.TrimSpace`, `strings.Split`,
`strings.Contains`, `strings.ReplaceAll`, `strings.Join`, `strings.ToLower`,
`strconv.Atoi`, `filepath.Base`) are modelled from their documented behaviour
on valid UTF-8 text.
-/

set_option autoImplicit false

/-- A Go string, seen as its sequence of runes. -/
abbrev Str := List Char

namespace GoStd

/-- The predicate unicode.IsSpace: the Latin-1 spaces and the Unicode
    category Z characters with property Pattern_White_Space. -/
def isSpace (c : Char) : Bool :=
  c.toNat == 0x09 || c.toNat == 0x0A || c.toNat == 0x0B || c.toNat == 0x0C ||
  c.toNat == 0x0D || c.toNat == 0x20 || c.toNat == 0x85 || c.toNat == 0xA0 ||
  c.toNat == 0x1680 || (0x2000 ≤ c.toNat && c.toNat ≤ 0x200A) ||
  c.toNat == 0x2028 || c.toNat == 0x2029 || c.toNat == 0x202F ||
  c.toNat == 0x205F || c.toNat == 0x3000

/-- The function strings.TrimSpace: drop leading and trailing white space. -/
def TrimSpace (s : Str) : Str :=
  ((s.dropWhile isSpace).reverse.dropWhile isSpace).reverse

/-- The function strings.Split for a one-rune separator (the only kind the
    tools use): cut at every occurrence, so `n` separators give `n + 1`
    pieces and the empty string gives one empty piece. -/
def Split : Str → Char → List Str
  | [], _ => [[]]
  | c :: cs, sep =>
    if c = sep then [] :: Split cs sep
    else
      match Split cs sep with
      | [] => [[c]]
      | p :: ps => (c :: p) :: ps

/-- The function strings.Contains: `substr` occurs inside `s`. -/
def Contains (s substr : Str) : Bool :=
  decide (substr <:+: s)

/-- The function strings.Join. -/
def Join : List Str → Str → Str
  | [], _ => []
  | [a], _ => a
  | a :: b :: rest, sep => a ++ sep ++ Join (b :: rest) sep

/-- The function strings.ReplaceAll for a one-rune pattern. -/
def ReplaceAll : Str → Char → Str → Str
  | [], _, _ => []
  | c :: cs, old, new =>
    if c = old then new ++ ReplaceAll cs old new else c :: ReplaceAll cs old new

/-- One decimal digit, as strconv reads it. -/
def digitVal (c : Char) : Option Nat :=
  if 48 ≤ c.toNat ∧ c.toNat ≤ 57 then some (c.toNat - 48) else none

/-- The digit loop of strconv.Atoi: every rune must be a decimal digit. -/
def parseDigits : Str → Nat → Option Nat
  | [], acc => some acc
  | c :: cs, acc =>
    match digitVal c with
    | none => none
    | some d => parseDigits cs (acc * 10 + d)

/-- The function strconv.Atoi on a 64-bit platform: an optional sign, then
    at least one decimal digit and nothing else; `none` stands for a non-nil
    error (syntax error, or a value outside the `int` range). -/
def Atoi (s : Str) : Option Int :=
  match s with
  | [] => none
  | c :: cs =>
    let body : Str := if c = '-' ∨ c = '+' then cs else s
    if body = [] then none
    else
      match parseDigits body 0 with
      | none => none
      | some n =>
        let v : Int := if c = '-' then -(n : Int) else (n : Int)
        if -9223372036854775808 ≤ v ∧ v ≤ 9223372036854775807 then some v else none

/-- The function filepath.Base on a slash-separated platform: the empty path
    gives ".", trailing slashes are stripped, the text after the last
    remaining slash is kept, and a path of slashes only gives "/". -/
def Base (path : Str) : Str :=
  if path = [] then ['.']
  else
    let stripped := path.rdropWhile (fun c => c == '/')
    let last := stripped.rtakeWhile (fun c => c != '/')
    if last = [] then ['/'] else last

/-- The function unicode.ToLower: the ASCII letters `A`..`Z` are shifted to
    `a`..`z`, other ASCII runes are unchanged, and a rune outside ASCII is
    looked up in the Unicode case table `caseTable`. -/
def toLowerRune (caseTable : Char → Char) (r : Char) : Char :=
  if r.toNat < 128 then
    if 65 ≤ r.toNat ∧ r.toNat ≤ 90 then Char.ofNat (r.toNat + 32) else r
  else caseTable r

/-- The function strings.ToLower: every rune mapped by unicode.ToLower. -/
def ToLower (caseTable : Char → Char) (s : Str) : Str :=
  s.map (toLowerRune caseTable)

end GoStd

namespace KyberLogManager

open GoStd

/-- The two errors parseSelection builds with fmt.Errorf; each carries the
    trimmed token that is printed in the message. -/
inductive SelError where
  | invalidRange (part : Str)
  | invalidNumber (part : Str)
deriving DecidableEq, Repr

/-- The token an error message names. -/
def SelError.token : SelError → Str
  | .invalidRange p => p
  | .invalidNumber p => p

/-- The loop state of parseSelection: the keys of the `seen` map that are
    set, and the `selected` slice. -/
structure SelState where
  seen : List Int
  selected : List Str
deriving DecidableEq, Repr

/-- The slice access `files[i-1]`; the callers have checked `1 ≤ i ≤ len(files)`,
    so the default is never produced. -/
def fileAt (files : List Str) (i : Int) : Str :=
  files.getD (i - 1).toNat []

/-- The body shared by both branches: `if !seen[i] { seen[i] = true;
    selected = append(selected, files[i-1]) }`. -/
def selectIndex (files : List Str) (st : SelState) (i : Int) : SelState :=
  if i ∈ st.seen then st
  else { seen := i :: st.seen, selected := st.selected ++ [fileAt files i] }

/-- The values `i` takes in `for i := start; i <= end; i++`. -/
def loopIndices (start stop : Int) : List Int :=
  (List.range (stop + 1 - start).toNat).map (fun (k : Nat) => start + (k : Int))

/-- One iteration of the loop over the comma-separated parts. -/
def processPart (files : List Str) (st : SelState) (rawPart : Str) :
    Except SelError SelState :=
  let part := TrimSpace rawPart
  if Contains part ['-'] then
    match Split part '-' with
    | [b0, b1] =>
      match Atoi (TrimSpace b0), Atoi (TrimSpace b1) with
      | some start, some stop =>
        if start < 1 ∨ stop > (files.length : Int) ∨ start > stop then
          .error (.invalidRange part)
        else
          .ok ((loopIndices start stop).foldl (selectIndex files) st)
      | _, _ => .error (.invalidRange part)
    | _ => .error (.invalidRange part)
  else
    match Atoi part with
    | none => .error (.invalidNumber part)
    | some index =>
      if index < 1 ∨ index > (files.length : Int) then .error (.invalidNumber part)
      else .ok (selectIndex files st index)

/-- The loop `for _, part := range parts`, stopping at the first error. -/
def processParts (files : List Str) : List Str → SelState → Except SelError SelState
  | [], st => .ok st
  | p :: ps, st =>
    match processPart files st p with
    | .error e => .error e
    | .ok st1 => processParts files ps st1

/-- The function containerExists of the log manager.  `cmdOutput` is what
    `cmd.Output()` returned: an error, or the text the listing printed. -/
def containerExists (cmdOutput : Except Str Str) (container : Str) :
    Bool × Option Str :=
  match cmdOutput with
  | .error err => (false, some err)
  | .ok output =>
    ((Split output '\n').any (fun line => decide (TrimSpace line = container)), none)

/-- The function parseSelection.  The Go result pair `([]string, error)` is
    kept as a pair: `nil` with an error, or the selection with `none`. -/
def parseSelection (input : Str) (files : List Str) : List Str × Option SelError :=
  match processParts files (Split input ',') { seen := [], selected := [] } with
  | .error e => ([], some e)
  | .ok st => (st.selected, none)

end KyberLogManager

namespace KyberUpdater

open GoStd

/-- The function containerExists of the module updater: each line of the
    listing is compared with the name as it stands. -/
def containerExists (cmdOutput : Except Str Str) (container : Str) :
    Bool × Option Str :=
  match cmdOutput with
  | .error err => (false, some err)
  | .ok output =>
    ((Split output '\n').any (fun line => decide (line = container)), none)

/-- The keys of the map `allowedFiles`. -/
def allowedFiles : List Str :=
  ["kyber.dll".toList, "vanillabundleaggregation.kb".toList,
   "ca_root.pem".toList, "vivoxsdk.dll".toList]

/-- The whitelist gate of `main`: `true` when control goes on past the gate,
    `false` when the tool prints "invalid file" and exits with status 1. -/
def fileNameGate (caseTable : Char → Char) (fileFlagSet : Bool) (fileName : Str) : Bool :=
  if fileFlagSet then
    let baseName := Base fileName
    let fileNameCase := ToLower caseTable baseName
    decide (fileNameCase ∈ allowedFiles)
  else true

end KyberUpdater

namespace KyberServerLauncher

open GoStd

/-- The constant imageName. -/
def imageName : Str := "ghcr.io/armchairdevelopers/kyber-server:latest".toList

/-- The struct Config. -/
structure Config where
  ContainerName : Str
  MaximaEmail : Str
  MaximaPassword : Str
  KyberToken : Str
  ServerName : Str
  ServerDescription : Str
  ServerPassword : Str
  MaxPlayers : Str
  MapRotation : Str
  ModuleChannel : Str
  GameDataPath : Str
  ModFolderPath : Str
  PluginFolderPath : Str
  RestartUnlessStopped : Bool
deriving DecidableEq, Repr

/-- The function quote: a double quote, the text with every double quote
    replaced by backslash double-quote, a double quote. -/
def quote (s : Str) : Str :=
  ['"'] ++ ReplaceAll s '"' ['\\', '"'] ++ ['"']

/-- The slice `parts` as buildDockerCommand leaves it before the join. -/
def buildParts (cfg : Config) : List Str :=
  let parts : List Str := []
  let parts := parts ++ ["docker run -it".toList]
  let parts := parts ++ ["--name".toList, cfg.ContainerName]
  let parts :=
    if cfg.RestartUnlessStopped then parts ++ ["--restart=unless-stopped".toList] else parts
  let maximaCreds := cfg.MaximaEmail ++ ":".toList ++ cfg.MaximaPassword
  let parts := parts ++
    ["-e MAXIMA_CREDENTIALS=".toList ++ quote maximaCreds,
     "-e KYBER_TOKEN=".toList ++ cfg.KyberToken,
     "-e KYBER_SERVER_NAME=".toList ++ quote cfg.ServerName,
     "-e KYBER_SERVER_MAX_PLAYERS=".toList ++ cfg.MaxPlayers,
     "-e KYBER_MAP_ROTATION=".toList ++ cfg.MapRotation]
  let parts :=
    if cfg.ModuleChannel ≠ "main".toList then
      parts ++ ["-e KYBER_MODULE_CHANNEL=".toList ++ cfg.ModuleChannel]
    else parts
  let parts :=
    if cfg.ServerDescription ≠ [] then
      parts ++ ["-e KYBER_SERVER_DESCRIPTION=".toList ++ quote cfg.ServerDescription]
    else parts
  let parts :=
    if cfg.ServerPassword ≠ [] then
      parts ++ ["-e KYBER_SERVER_PASSWORD=".toList ++ quote cfg.ServerPassword]
    else parts
  let parts := parts ++
    ["-v ".toList ++ quote (cfg.GameDataPath ++ ":/mnt/battlefront".toList)]
  let parts :=
    if cfg.ModFolderPath ≠ [] then
      parts ++
        ["-v ".toList ++ quote cfg.ModFolderPath ++ ":/mnt/battlefront/mods".toList,
         "-e KYBER_MOD_FOLDER=/mnt/battlefront/mods".toList]
    else parts
  let parts :=
    if cfg.PluginFolderPath ≠ [] then
      parts ++
        ["-v ".toList ++ quote cfg.PluginFolderPath ++ ":/mnt/battlefront/plugins".toList,
         "-e KYBER_SERVER_PLUGINS_PATH=/mnt/battlefront/plugins".toList]
    else parts
  parts ++ [imageName]

/-- The function buildDockerCommand: the parts joined with single spaces. -/
def buildDockerCommand (cfg : Config) : Str :=
  Join (buildParts cfg) " ".toList

/-- A sample configuration: the default channel "main", a description and a
    password, no mod or plugin folder. -/
def sampleConfig : Config :=
  { ContainerName := "kyber1".toList, MaximaEmail := "a@b.c".toList,
    MaximaPassword := "pw".toList, KyberToken := "tok".toList,
    ServerName := "My Server".toList, ServerDescription := "say \"hi\"".toList,
    ServerPassword := "s3".toList, MaxPlayers := "40".toList,
    MapRotation := "QUJD".toList, ModuleChannel := "main".toList,
    GameDataPath := "/data".toList, ModFolderPath := [], PluginFolderPath := [],
    RestartUnlessStopped := false }

/-- The rune test inside promptContainerName. -/
def allowedRune (r : Char) : Bool :=
  (97 ≤ r.toNat && r.toNat ≤ 122) || (48 ≤ r.toNat && r.toNat ≤ 57) ||
  r == '-' || r == '_' || r == '.'

/-- The function promptContainerName.  The reader is the list of lines that
    `ReadString` will deliver, one per call; the result is the returned name
    and the lines left unread.  Once the input is used up `ReadString` gives
    the empty string at every call and the Go loop never returns, which the
    model renders as `none`. -/
def promptContainerName : List Str → Option (Str × List Str)
  | [] => none
  | line :: rest =>
    let text := TrimSpace line
    if text = [] then promptContainerName rest
    else if Contains text " ".toList then promptContainerName rest
    else if text.all allowedRune then some (text, rest)
    else promptContainerName rest

end KyberServerLauncher

namespace ShellModel

/-- The inside of a double-quoted shell word, read up to the closing quote:
    a backslash followed by a double quote or a backslash stands for that
    rune, any other backslash stands for itself, and an unescaped double
    quote ends the word.  The result is the value of the word and the text
    after the closing quote; `none` means the word is never closed. -/
def readQuotedBody : Str → Option (Str × Str)
  | [] => none
  | c :: rest =>
    if c = '"' then some ([], rest)
    else if c = '\\' then
      match rest with
      | [] => none
      | d :: rest2 =>
        if d = '"' ∨ d = '\\' then
          (readQuotedBody rest2).map (fun p => (d :: p.1, p.2))
        else
          (readQuotedBody rest2).map (fun p => ('\\' :: d :: p.1, p.2))
    else (readQuotedBody rest).map (fun p => (c :: p.1, p.2))

/-- A double-quoted shell word: an opening double quote, then the body. -/
def readQuotedWord : Str → Option (Str × Str)
  | [] => none
  | c :: rest => if c = '"' then readQuotedBody rest else none

end ShellModel

namespace SelectionSpec

open GoStd

/-- The integers `a, a+1, ...`, `n` of them. -/
def countUp : Int → Nat → List Int
  | _, 0 => []
  | a, n + 1 => a :: countUp (a + 1) n

/-- The inclusive range `[a, a+1, ..., b]` (empty when `b < a`). -/
def closedRange (a b : Int) : List Int :=
  countUp a (b - a + 1).toNat

/-- Keep only the first occurrence of each index, in order of appearance. -/
def keepFirst : List Int → List Int
  | [] => []
  | x :: xs => x :: (keepFirst xs).filter (fun y => decide (y ≠ x))

/-- The indices a trimmed token stands for: a single `n` stands for `[n]`, a
    range `a-b` for `[a, ..., b]`; a token of neither shape stands for none. -/
def expandToken (tok : Str) : List Int :=
  match Split tok '-' with
  | [single] =>
    match Atoi single with
    | some n => [n]
    | none => []
  | [lo, hi] =>
    match Atoi (TrimSpace lo), Atoi (TrimSpace hi) with
    | some a, some b => closedRange a b
    | _, _ => []
  | _ => []

/-- The index list of a whole expression: the tokens expanded in order. -/
def expandAll (expr : Str) : List Int :=
  (Split expr ',').flatMap (fun tok => expandToken (TrimSpace tok))

/-- A single integer `n` with `1 ≤ n ≤ len`. -/
def validSingle (len : Nat) (tok : Str) : Prop :=
  ∃ n : Int, Atoi tok = some n ∧ 1 ≤ n ∧ n ≤ (len : Int)

/-- A range `a-b` with exactly one `-`, both trimmed bounds integers,
    `1 ≤ a`, `b ≤ len` and `a ≤ b`. -/
def validRange (len : Nat) (tok : Str) : Prop :=
  ∃ (lo hi : Str) (a b : Int), tok = lo ++ '-' :: hi ∧ '-' ∉ lo ∧ '-' ∉ hi ∧
    Atoi (TrimSpace lo) = some a ∧ Atoi (TrimSpace hi) = some b ∧
    1 ≤ a ∧ b ≤ (len : Int) ∧ a ≤ b

/-- A valid (trimmed) token of the selection grammar. -/
def validToken (len : Nat) (tok : Str) : Prop :=
  validSingle len tok ∨ validRange len tok

/-- The error parseSelection reports for an invalid part. -/
def partError (rawPart : Str) : KyberLogManager.SelError :=
  if Contains (TrimSpace rawPart) ['-'] then .invalidRange (TrimSpace rawPart)
  else .invalidNumber (TrimSpace rawPart)

end SelectionSpec

namespace LauncherSpec

/-- One character of the class `[a-z0-9._-]`. -/
def inNameClass (c : Char) : Prop :=
  ('a' ≤ c ∧ c ≤ 'z') ∨ ('0' ≤ c ∧ c ≤ '9') ∨ c = '.' ∨ c = '_' ∨ c = '-'

instance (c : Char) : Decidable (inNameClass c) := by
  unfold inNameClass
  infer_instance

/-- The text matches `[a-z0-9._-]+`: non-empty, every character in the class. -/
def matchesNameClass (s : Str) : Prop :=
  s ≠ [] ∧ ∀ c ∈ s, inNameClass c

instance (s : Str) : Decidable (matchesNameClass s) := by
  unfold matchesNameClass
  infer_instance

/-- The quoting rule in words: a double quote, the text with each double
    quote turned into backslash double-quote, a double quote. -/
def quoted (v : Str) : Str :=
  ['"'] ++ v.flatMap (fun c => if c = '"' then ['\\', '"'] else [c]) ++ ['"']

end LauncherSpec

open GoStd KyberLogManager KyberServerLauncher ShellModel SelectionSpec LauncherSpec

/-! ## Facts about the string primitives -/

theorem GoStd.contains_singleton (s : Str) (c : Char) :
    Contains s [c] = true ↔ c ∈ s := by
  unfold Contains
  rw [decide_eq_true_iff]
  constructor
  · rintro ⟨u, v, rfl⟩
    simp
  · intro h
    obtain ⟨u, v, rfl⟩ := List.append_of_mem h
    exact ⟨u, v, by simp⟩

theorem GoStd.Split_ne_nil (s : Str) (sep : Char) : Split s sep ≠ [] := by
  cases s with
  | nil => simp [Split]
  | cons c cs =>
    unfold Split
    split_ifs
    · simp
    · split <;> simp

theorem GoStd.Split_cons_sep (cs : Str) (sep : Char) :
    Split (sep :: cs) sep = [] :: Split cs sep := by
  simp [Split]

theorem GoStd.Split_cons_ne (c : Char) (cs : Str) (sep : Char) (h : c ≠ sep) :
    ∃ p ps, Split cs sep = p :: ps ∧ Split (c :: cs) sep = (c :: p) :: ps := by
  cases hs : Split cs sep with
  | nil => exact absurd hs (Split_ne_nil cs sep)
  | cons p ps =>
    refine ⟨p, ps, rfl, ?_⟩
    simp [Split, h, hs]

theorem GoStd.Split_of_not_mem (s : Str) (sep : Char) (h : sep ∉ s) :
    Split s sep = [s] := by
  induction s with
  | nil => simp [Split]
  | cons c cs ih =>
    have hc : c ≠ sep := fun e => h (by simp [e])
    have hcs : sep ∉ cs := fun e => h (by simp [e])
    simp [Split, hc, ih hcs]

theorem GoStd.Split_append_sep (a b : Str) (sep : Char) :
    Split (a ++ sep :: b) sep = Split a sep ++ Split b sep := by
  induction a with
  | nil => simp [Split]
  | cons c cs ih =>
    by_cases hc : c = sep
    · subst hc
      simp [Split, ih]
    · obtain ⟨p, ps, h1, h2⟩ := Split_cons_ne c cs sep hc
      rw [h2]
      simp [Split, hc, ih, h1]

theorem GoStd.Split_not_mem (s : Str) (sep : Char) :
    ∀ p ∈ Split s sep, sep ∉ p := by
  induction s with
  | nil => simp [Split]
  | cons c cs ih =>
    by_cases hc : c = sep
    · subst hc
      intro p hp
      rw [Split_cons_sep] at hp
      rcases List.mem_cons.1 hp with rfl | hp
      · simp
      · exact ih p hp
    · obtain ⟨q, qs, h1, h2⟩ := Split_cons_ne c cs sep hc
      intro p hp
      rw [h2] at hp
      rw [h1] at ih
      rcases List.mem_cons.1 hp with rfl | hp
      · intro hmem
        rcases List.mem_cons.1 hmem with e | e
        · exact hc e.symm
        · exact ih q (by simp) e
      · exact ih p (by simp [hp])

theorem GoStd.Join_Split (s : Str) (sep : Char) :
    Join (Split s sep) [sep] = s := by
  induction s with
  | nil => simp [Split, Join]
  | cons c cs ih =>
    by_cases hc : c = sep
    · subst hc
      rw [Split_cons_sep]
      cases hs : Split cs c with
      | nil => exact absurd hs (Split_ne_nil cs c)
      | cons q qs =>
        rw [hs] at ih
        simp [Join, ih]
    · obtain ⟨q, qs, h1, h2⟩ := Split_cons_ne c cs sep hc
      rw [h2]
      rw [h1] at ih
      cases qs with
      | nil =>
        simp only [Join] at ih ⊢
        rw [ih]
      | cons r rs =>
        simp only [Join] at ih ⊢
        rw [← ih]
        simp

theorem GoStd.Split_eq_pair_iff (s lo hi : Str) (sep : Char) :
    Split s sep = [lo, hi] ↔ s = lo ++ sep :: hi ∧ sep ∉ lo ∧ sep ∉ hi := by
  constructor
  · intro h
    have hj := Join_Split s sep
    have hm := Split_not_mem s sep
    rw [h] at hj hm
    refine ⟨?_, hm lo (by simp), hm hi (by simp)⟩
    rw [← hj]
    simp [Join]
  · rintro ⟨rfl, h1, h2⟩
    rw [Split_append_sep, Split_of_not_mem lo sep h1, Split_of_not_mem hi sep h2]
    rfl

/-! ## Facts about strconv.Atoi -/

theorem GoStd.parseDigits_digits (s : Str) (acc n : Nat)
    (h : parseDigits s acc = some n) : ∀ c ∈ s, 48 ≤ c.toNat ∧ c.toNat ≤ 57 := by
  induction s generalizing acc with
  | nil => simp
  | cons c cs ih =>
    intro d hd
    unfold parseDigits at h
    unfold digitVal at h
    by_cases hc : 48 ≤ c.toNat ∧ c.toNat ≤ 57
    · rw [if_pos hc] at h
      rcases List.mem_cons.1 hd with rfl | hd
      · exact hc
      · exact ih _ h d hd
    · rw [if_neg hc] at h
      simp at h

theorem GoStd.Atoi_eq_some (s : Str) (n : Int) (h : Atoi s = some n) :
    ∃ c cs m, s = c :: cs ∧
      parseDigits (if c = '-' ∨ c = '+' then cs else c :: cs) 0 = some m ∧
      n = (if c = '-' then -(m : Int) else (m : Int)) := by
  cases s with
  | nil => simp [Atoi] at h
  | cons c cs =>
    refine ⟨c, cs, ?_⟩
    rw [Atoi] at h
    dsimp only at h
    generalize (if c = '-' ∨ c = '+' then cs else c :: cs) = body at h ⊢
    by_cases hb : body = []
    · simp [hb] at h
    · rw [if_neg hb] at h
      cases hp : parseDigits body 0 with
      | none => rw [hp] at h; simp at h
      | some m =>
        rw [hp] at h
        dsimp only at h
        refine ⟨m, rfl, rfl, ?_⟩
        split_ifs at h with h1 h2 h3
        · rw [if_pos h1]; simpa using h.symm
        · rw [if_neg h1]; simpa using h.symm

theorem GoStd.Atoi_pos_no_dash (s : Str) (n : Int) (h : Atoi s = some n)
    (hn : 1 ≤ n) : '-' ∉ s := by
  obtain ⟨c, cs, m, rfl, hp, hv⟩ := Atoi_eq_some s n h
  have hcne : c ≠ '-' := by
    intro hc
    rw [if_pos hc] at hv
    omega
  have hd := parseDigits_digits _ _ _ hp
  intro hmem
  have hcs : '-' ∈ (if c = '-' ∨ c = '+' then cs else c :: cs) := by
    rcases List.mem_cons.1 hmem with e | e
    · exact absurd e.symm hcne
    · split_ifs
      · exact e
      · exact List.mem_cons_of_mem _ e
  have := hd _ hcs
  revert this
  decide

/-! ## The index loop of parseSelection -/

theorem SelectionSpec.countUp_eq_map (a : Int) (n : Nat) :
    countUp a n = (List.range n).map (fun (k : Nat) => a + (k : Int)) := by
  induction n generalizing a with
  | zero => rfl
  | succ n ih =>
    rw [countUp, ih, List.range_succ_eq_map]
    simp only [List.map_cons, List.map_map]
    congr 1
    · simp
    · apply List.map_congr_left
      intro k _
      simp only [Function.comp, Nat.succ_eq_add_one]
      push_cast
      ring

theorem SelectionSpec.loopIndices_eq_closedRange (a b : Int) :
    loopIndices a b = closedRange a b := by
  unfold loopIndices closedRange
  rw [countUp_eq_map]
  congr 2
  omega

theorem KyberLogManager.mem_loopIndices (a b i : Int) :
    i ∈ loopIndices a b ↔ a ≤ i ∧ i ≤ b := by
  unfold loopIndices
  simp only [List.mem_map, List.mem_range]
  constructor
  · rintro ⟨k, hk, rfl⟩
    omega
  · rintro ⟨h1, h2⟩
    exact ⟨(i - a).toNat, by omega, by omega⟩

theorem SelectionSpec.mem_keepFirst (l : List Int) (i : Int) :
    i ∈ keepFirst l ↔ i ∈ l := by
  induction l with
  | nil => simp [keepFirst]
  | cons x xs ih =>
    simp only [keepFirst, List.mem_cons, List.mem_filter, ih, decide_eq_true_eq]
    by_cases h : i = x <;> simp [h]

theorem SelectionSpec.nodup_keepFirst (l : List Int) : (keepFirst l).Nodup := by
  induction l with
  | nil => simp [keepFirst]
  | cons x xs ih =>
    simp only [keepFirst, List.nodup_cons, List.mem_filter, decide_eq_true_eq]
    exact ⟨fun h => h.2 rfl, ih.filter _⟩

theorem KyberLogManager.foldl_selectIndex_selected (files : List Str) (is : List Int)
    (st : SelState) :
    (is.foldl (selectIndex files) st).selected =
      st.selected ++
        ((keepFirst is).filter (fun y => decide (y ∉ st.seen))).map (fileAt files) := by
  induction is generalizing st with
  | nil => simp [keepFirst]
  | cons x xs ih =>
    rw [List.foldl_cons, ih]
    by_cases hx : x ∈ st.seen
    · have hs : selectIndex files st x = st := by simp [selectIndex, hx]
      rw [hs]
      simp only [keepFirst, List.filter_cons, hx, not_true_eq_false, decide_False,
        Bool.false_eq_true, if_false, List.filter_filter]
      congr 2
      apply List.filter_congr
      intro y _
      by_cases hy : y ∈ st.seen
      · simp [hy]
      · have : y ≠ x := fun e => hy (e ▸ hx)
        simp [hy, this]
    · have hs : selectIndex files st x =
          { seen := x :: st.seen, selected := st.selected ++ [fileAt files x] } := by
        simp [selectIndex, hx]
      rw [hs]
      simp only [keepFirst, List.filter_cons, hx, not_false_eq_true, decide_True,
        if_true, List.filter_filter, List.map_cons, List.append_assoc,
        List.singleton_append]
      congr 3
      apply List.filter_congr
      intro y _
      simp only [List.mem_cons, not_or, ne_eq, Bool.decide_and, Bool.and_comm]

theorem KyberLogManager.mem_seen_foldl (files : List Str) (is : List Int)
    (st : SelState) (i : Int) :
    i ∈ (is.foldl (selectIndex files) st).seen ↔ i ∈ is ∨ i ∈ st.seen := by
  induction is generalizing st with
  | nil => simp
  | cons x xs ih =>
    rw [List.foldl_cons, ih]
    by_cases hx : x ∈ st.seen
    · have hs : selectIndex files st x = st := by simp [selectIndex, hx]
      rw [hs]
      constructor
      · rintro (h | h)
        · exact Or.inl (List.mem_cons_of_mem _ h)
        · exact Or.inr h
      · rintro (h | h)
        · rcases List.mem_cons.1 h with rfl | h
          · exact Or.inr hx
          · exact Or.inl h
        · exact Or.inr h
    · have hs : (selectIndex files st x).seen = x :: st.seen := by
        simp [selectIndex, hx]
      rw [hs]
      simp only [List.mem_cons]
      tauto

theorem KyberLogManager.foldl_selectIndex_of_seen (files : List Str) (is : List Int)
    (st : SelState) (h : ∀ i ∈ is, i ∈ st.seen) :
    is.foldl (selectIndex files) st = st := by
  induction is with
  | nil => rfl
  | cons x xs ih =>
    have hx : x ∈ st.seen := h x (by simp)
    have hs : selectIndex files st x = st := by simp [selectIndex, hx]
    rw [List.foldl_cons, hs]
    exact ih (fun i hi => h i (List.mem_cons_of_mem _ hi))

/-! ## One part of the selection expression -/

theorem KyberLogManager.processPart_valid (files : List Str) (st : SelState) (raw : Str)
    (h : validToken files.length (TrimSpace raw)) :
    processPart files st raw =
        .ok ((expandToken (TrimSpace raw)).foldl (selectIndex files) st) ∧
      ∀ i ∈ expandToken (TrimSpace raw), 1 ≤ i ∧ i ≤ (files.length : Int) := by
  rcases h with ⟨n, hA, h1, h2⟩ | ⟨lo, hi, a, b, htok, hlo, hhi, hA, hB, h1, h2, h3⟩
  · have hd : '-' ∉ TrimSpace raw := Atoi_pos_no_dash _ _ hA h1
    have hc : Contains (TrimSpace raw) ['-'] = false := by
      rw [← Bool.not_eq_true, contains_singleton]; exact hd
    have hs : Split (TrimSpace raw) '-' = [TrimSpace raw] := Split_of_not_mem _ _ hd
    have he : expandToken (TrimSpace raw) = [n] := by
      simp [expandToken, hs, hA]
    have hn : ¬ (n < 1 ∨ n > (files.length : Int)) := by omega
    refine ⟨?_, ?_⟩
    · simp only [processPart, hc, hA, he, List.foldl_cons, List.foldl_nil]
      simp [hn]
    · rw [he]
      intro i hi
      have : i = n := by simpa using hi
      omega
  · have hd : '-' ∈ TrimSpace raw := by rw [htok]; simp
    have hc : Contains (TrimSpace raw) ['-'] = true := (contains_singleton _ _).2 hd
    have hs : Split (TrimSpace raw) '-' = [lo, hi] :=
      (Split_eq_pair_iff _ _ _ _).2 ⟨htok, hlo, hhi⟩
    have he : expandToken (TrimSpace raw) = loopIndices a b := by
      simp [expandToken, hs, hA, hB, loopIndices_eq_closedRange]
    have hn : ¬ (a < 1 ∨ b > (files.length : Int) ∨ a > b) := by omega
    refine ⟨?_, ?_⟩
    · simp only [processPart, hc, hs, hA, hB, he]
      simp [hn]
    · rw [he]
      intro i hi
      have := (mem_loopIndices a b i).1 hi
      omega

theorem KyberLogManager.processPart_invalid (files : List Str) (st : SelState) (raw : Str)
    (h : ¬ validToken files.length (TrimSpace raw)) :
    processPart files st raw = .error (partError raw) := by
  by_cases hc : Contains (TrimSpace raw) ['-'] = true
  · have hpe : partError raw = .invalidRange (TrimSpace raw) := by simp [partError, hc]
    rw [hpe]
    simp only [processPart, hc, if_true]
    split
    · rename_i b0 b1 hs
      split
      · rename_i a b hA hB
        split_ifs with hbad
        · rfl
        · exfalso
          apply h
          right
          obtain ⟨htok, hlo, hhi⟩ := (Split_eq_pair_iff _ _ _ _).1 hs
          exact ⟨b0, b1, a, b, htok, hlo, hhi, hA, hB, by omega, by omega, by omega⟩
      · rfl
    · rfl
  · have hc2 : Contains (TrimSpace raw) ['-'] = false := by simpa using hc
    have hpe : partError raw = .invalidNumber (TrimSpace raw) := by simp [partError, hc2]
    rw [hpe]
    simp only [processPart, hc2]
    cases hA : Atoi (TrimSpace raw) with
    | none => simp
    | some n =>
      by_cases hbad : n < 1 ∨ n > (files.length : Int)
      · simp [hbad]
      · exfalso
        apply h
        left
        exact ⟨n, hA, by omega, by omega⟩

/-! ## The loop over the parts -/

theorem KyberLogManager.processParts_append (files : List Str) (ps qs : List Str)
    (st : SelState) :
    processParts files (ps ++ qs) st =
      match processParts files ps st with
      | .error e => .error e
      | .ok st1 => processParts files qs st1 := by
  induction ps generalizing st with
  | nil => rfl
  | cons p ps ih =>
    simp only [List.cons_append, processParts]
    cases processPart files st p with
    | error e => rfl
    | ok st1 => exact ih st1

theorem KyberLogManager.processParts_valid (files : List Str) (ps : List Str)
    (st : SelState) (h : ∀ p ∈ ps, validToken files.length (TrimSpace p)) :
    processParts files ps st =
      .ok ((ps.flatMap (fun p => expandToken (TrimSpace p))).foldl (selectIndex files) st) := by
  induction ps generalizing st with
  | nil => rfl
  | cons p ps ih =>
    have hp := (processPart_valid files st p (h p (by simp))).1
    simp only [processParts, hp, List.flatMap_cons, List.foldl_append]
    exact ih _ (fun q hq => h q (List.mem_cons_of_mem _ hq))

theorem KyberLogManager.processParts_invalid (files : List Str) (pre : List Str)
    (t : Str) (post : List Str) (st : SelState)
    (hpre : ∀ p ∈ pre, validToken files.length (TrimSpace p))
    (ht : ¬ validToken files.length (TrimSpace t)) :
    processParts files (pre ++ t :: post) st = .error (partError t) := by
  rw [processParts_append, processParts_valid files pre st hpre]
  simp only [processParts, processPart_invalid files _ t ht]

theorem SelectionSpec.first_invalid (len : Nat) (ps : List Str)
    (h : ¬ ∀ p ∈ ps, validToken len (TrimSpace p)) :
    ∃ pre t post, ps = pre ++ t :: post ∧
      (∀ p ∈ pre, validToken len (TrimSpace p)) ∧ ¬ validToken len (TrimSpace t) := by
  induction ps with
  | nil => simp at h
  | cons p ps ih =>
    by_cases hp : validToken len (TrimSpace p)
    · have h2 : ¬ ∀ q ∈ ps, validToken len (TrimSpace q) := by
        intro hall
        apply h
        intro q hq
        rcases List.mem_cons.1 hq with rfl | hq
        · exact hp
        · exact hall q hq
      obtain ⟨pre, t, post, rfl, h3, h4⟩ := ih h2
      refine ⟨p :: pre, t, post, rfl, ?_, h4⟩
      intro q hq
      rcases List.mem_cons.1 hq with rfl | hq
      · exact hp
      · exact h3 q hq
    · exact ⟨[], p, ps, rfl, by simp, hp⟩

theorem SelectionSpec.partError_token (raw : Str) :
    (partError raw).token = TrimSpace raw := by
  unfold partError
  split_ifs <;> rfl

theorem SelectionSpec.expandAll_bounds (expr : Str) (files : List Str)
    (h : ∀ p ∈ Split expr ',', validToken files.length (TrimSpace p)) :
    ∀ i ∈ expandAll expr, 1 ≤ i ∧ i ≤ (files.length : Int) := by
  intro i hi
  simp only [expandAll, List.mem_flatMap] at hi
  obtain ⟨p, hp, hip⟩ := hi
  exact (processPart_valid files ⟨[], []⟩ p (h p hp)).2 i hip

/-- The outcome of parseSelection, by cases on the validity of the tokens. -/
theorem KyberLogManager.parseSelection_cases (expr : Str) (files : List Str) :
    ((∀ p ∈ Split expr ',', validToken files.length (TrimSpace p)) ∧
      parseSelection expr files =
        ((keepFirst (expandAll expr)).map (fileAt files), none)) ∨
    (∃ pre t post, Split expr ',' = pre ++ t :: post ∧
      (∀ p ∈ pre, validToken files.length (TrimSpace p)) ∧
      ¬ validToken files.length (TrimSpace t) ∧
      parseSelection expr files = ([], some (partError t))) := by
  by_cases h : ∀ p ∈ Split expr ',', validToken files.length (TrimSpace p)
  · left
    refine ⟨h, ?_⟩
    unfold parseSelection
    rw [processParts_valid files _ _ h]
    simp only [foldl_selectIndex_selected, List.nil_append]
    congr 2
    simp [expandAll]
  · right
    obtain ⟨pre, t, post, hs, hpre, ht⟩ := first_invalid _ _ h
    refine ⟨pre, t, post, hs, hpre, ht, ?_⟩
    unfold parseSelection
    rw [hs, processParts_invalid files pre t post _ hpre ht]

theorem KyberLogManager.fileAt_eq (files : List Str) (i : Int)
    (h : 1 ≤ i ∧ i ≤ (files.length : Int)) :
    files[(i - 1).toNat]? = some (fileAt files i) := by
  have hlt : (i - 1).toNat < files.length := by omega
  unfold fileAt
  rw [List.getD_eq_getElem?_getD, List.getElem?_eq_getElem hlt]
  rfl

theorem SelectionSpec.map_fileAt_eq (files : List Str) (idx : List Int)
    (h : ∀ i ∈ idx, 1 ≤ i ∧ i ≤ (files.length : Int)) :
    (idx.map (fileAt files)).map some = idx.map (fun i => files[(i - 1).toNat]?) := by
  rw [List.map_map]
  apply List.map_congr_left
  intro i hi
  exact (fileAt_eq files i (h i hi)).symm

theorem SelectionSpec.keepFirst_bounds (l : List Int) (len : Nat)
    (h : ∀ i ∈ l, 1 ≤ i ∧ i ≤ (len : Int)) :
    ∀ i ∈ keepFirst l, 1 ≤ i ∧ i ≤ (len : Int) :=
  fun i hi => h i ((mem_keepFirst l i).1 hi)

theorem SelectionSpec.nodup_bounded_length (idx : List Nat) (len : Nat)
    (hnd : idx.Nodup) (hb : ∀ i ∈ idx, 1 ≤ i ∧ i ≤ len) : idx.length ≤ len := by
  have hsub : idx ⊆ List.range' 1 len := by
    intro i hi
    have := hb i hi
    simp only [List.mem_range']
    exact ⟨i - 1, by omega, by omega⟩
  have := (List.subperm_of_subset hnd hsub).length_le
  simpa using this

/-! ## The selection parser: the properties of the specification -/

/-- C1: parseSelection either fails with an error and the nil list, or returns
    a list read off `files` at pairwise-distinct indices, each between 1 and
    `len(files)`; a successful result has at most `len(files)` elements. -/
theorem parseSelection_indices_in_range (expr : Str) (files : List Str) :
    (∃ e, parseSelection expr files = ([], some e)) ∨
    (∃ (sel : List Str) (idx : List Nat),
      parseSelection expr files = (sel, none) ∧
      idx.Nodup ∧
      (∀ i ∈ idx, 1 ≤ i ∧ i ≤ files.length) ∧
      sel.map some = idx.map (fun i => files[i - 1]?) ∧
      sel.length ≤ files.length) := by
  rcases parseSelection_cases expr files with ⟨hv, hok⟩ | ⟨pre, t, post, _, _, _, herr⟩
  · right
    have hb := keepFirst_bounds _ _ (expandAll_bounds expr files hv)
    have hnd : ((keepFirst (expandAll expr)).map Int.toNat).Nodup := by
      apply List.Nodup.map_on _ (nodup_keepFirst _)
      intro x hx y hy hxy
      have := hb x hx
      have := hb y hy
      omega
    have hbn : ∀ i ∈ (keepFirst (expandAll expr)).map Int.toNat,
        1 ≤ i ∧ i ≤ files.length := by
      intro i hi
      obtain ⟨j, hj, rfl⟩ := List.mem_map.1 hi
      have := hb j hj
      omega
    refine ⟨_, (keepFirst (expandAll expr)).map Int.toNat, hok, hnd, hbn, ?_, ?_⟩
    · rw [map_fileAt_eq files _ hb, List.map_map]
      apply List.map_congr_left
      intro i hi
      have := hb i hi
      have he : (i - 1).toNat = i.toNat - 1 := by omega
      simp [Function.comp, he]
    · have := nodup_bounded_length _ _ hnd hbn
      simpa using this
  · left
    exact ⟨_, herr⟩

/-- C1, at a concrete input: "3,1-3" on the files a, b, c, d, e. -/
theorem parseSelection_indices_in_range_witness :
    (∃ e, parseSelection "3,1-3".toList
        ["a".toList, "b".toList, "c".toList, "d".toList, "e".toList] = ([], some e)) ∨
    (∃ (sel : List Str) (idx : List Nat),
      parseSelection "3,1-3".toList
        ["a".toList, "b".toList, "c".toList, "d".toList, "e".toList] = (sel, none) ∧
      idx.Nodup ∧
      (∀ i ∈ idx, 1 ≤ i ∧
        i ≤ ["a".toList, "b".toList, "c".toList, "d".toList, "e".toList].length) ∧
      sel.map some = idx.map
        (fun i => ["a".toList, "b".toList, "c".toList, "d".toList, "e".toList][i - 1]?) ∧
      sel.length ≤ ["a".toList, "b".toList, "c".toList, "d".toList, "e".toList].length) :=
  parseSelection_indices_in_range "3,1-3".toList
    ["a".toList, "b".toList, "c".toList, "d".toList, "e".toList]

/-- C2: on success the result is `files[i-1]` mapped over the indices of the
    tokens, expanded in order (a single `n` to `[n]`, a range `a-b` to
    `[a, ..., b]`) and cut down to the first occurrence of each index, in
    order of first appearance; on five files "1-3" gives the first three and
    "3,1-3" gives the third, the first and the second. -/
theorem parseSelection_first_appearance_order :
    (∀ (expr : Str) (files sel : List Str),
      parseSelection expr files = (sel, none) →
      sel.map some = (keepFirst (expandAll expr)).map (fun i => files[(i - 1).toNat]?)) ∧
    (∀ f0 f1 f2 f3 f4 : Str,
      parseSelection "1-3".toList [f0, f1, f2, f3, f4] = ([f0, f1, f2], none)) ∧
    (∀ f0 f1 f2 f3 f4 : Str,
      parseSelection "3,1-3".toList [f0, f1, f2, f3, f4] = ([f2, f0, f1], none)) := by
  refine ⟨?_, fun _ _ _ _ _ => rfl, fun _ _ _ _ _ => rfl⟩
  intro expr files sel h
  rcases parseSelection_cases expr files with ⟨hv, hok⟩ | ⟨pre, t, post, _, _, _, herr⟩
  · rw [hok] at h
    have hsel : sel = (keepFirst (expandAll expr)).map (fileAt files) :=
      (congrArg Prod.fst h).symm
    rw [hsel]
    exact map_fileAt_eq files _ (keepFirst_bounds _ _ (expandAll_bounds expr files hv))
  · rw [herr] at h
    simp at h

/-- C2, at a concrete input: "3,1-3" on the files a, b, c, d, e. -/
theorem parseSelection_first_appearance_order_witness :
    parseSelection "3,1-3".toList
        ["a".toList, "b".toList, "c".toList, "d".toList, "e".toList] =
      (["c".toList, "a".toList, "b".toList], none) ∧
    ["c".toList, "a".toList, "b".toList].map some =
      (keepFirst (expandAll "3,1-3".toList)).map
        (fun i => ["a".toList, "b".toList, "c".toList, "d".toList, "e".toList][(i - 1).toNat]?) :=
  ⟨by decide, parseSelection_first_appearance_order.1 "3,1-3".toList
      ["a".toList, "b".toList, "c".toList, "d".toList, "e".toList]
      ["c".toList, "a".toList, "b".toList] (by decide)⟩

/-- C3: parseSelection succeeds exactly when every comma-separated token,
    trimmed, is a valid single or a valid range; on failure the list is nil
    and the error names the first invalid token; "5-2", "0-2", "1-6" and the
    empty expression fail, "3-3" gives one item and the index `len(files)`
    is accepted. -/
theorem parseSelection_succeeds_iff_tokens_valid :
    (∀ (expr : Str) (files : List Str),
      (parseSelection expr files).2 = none ↔
        ∀ tok ∈ Split expr ',', validToken files.length (TrimSpace tok)) ∧
    (∀ (expr : Str) (files : List Str) (e : SelError),
      (parseSelection expr files).2 = some e →
        (parseSelection expr files).1 = [] ∧
        ∃ pre t post, Split expr ',' = pre ++ t :: post ∧
          (∀ p ∈ pre, validToken files.length (TrimSpace p)) ∧
          ¬ validToken files.length (TrimSpace t) ∧
          e.token = TrimSpace t) ∧
    (∀ f0 f1 f2 f3 f4 : Str,
      parseSelection "5-2".toList [f0, f1, f2, f3, f4] =
        ([], some (.invalidRange "5-2".toList)) ∧
      parseSelection "0-2".toList [f0, f1, f2, f3, f4] =
        ([], some (.invalidRange "0-2".toList)) ∧
      parseSelection "1-6".toList [f0, f1, f2, f3, f4] =
        ([], some (.invalidRange "1-6".toList))) ∧
    (∀ files : List Str, parseSelection [] files = ([], some (.invalidNumber []))) ∧
    (∀ f0 f1 f2 f3 f4 : Str,
      parseSelection "3-3".toList [f0, f1, f2, f3, f4] = ([f2], none) ∧
      parseSelection "5".toList [f0, f1, f2, f3, f4] = ([f4], none) ∧
      parseSelection "1-5".toList [f0, f1, f2, f3, f4] = ([f0, f1, f2, f3, f4], none)) := by
  refine ⟨?_, ?_, fun _ _ _ _ _ => ⟨rfl, rfl, rfl⟩, fun _ => rfl,
    fun _ _ _ _ _ => ⟨rfl, rfl, rfl⟩⟩
  · intro expr files
    rcases parseSelection_cases expr files with ⟨hv, hok⟩ | ⟨pre, t, post, hs, hpre, ht, herr⟩
    · rw [hok]
      simp only [true_iff]
      exact hv
    · rw [herr]
      simp only [reduceCtorEq, false_iff]
      intro hall
      exact ht (hall t (by rw [hs]; simp))
  · intro expr files e he
    rcases parseSelection_cases expr files with ⟨hv, hok⟩ | ⟨pre, t, post, hs, hpre, ht, herr⟩
    · rw [hok] at he
      simp at he
    · rw [herr] at he ⊢
      have : partError t = e := by simpa using he
      refine ⟨rfl, pre, t, post, hs, hpre, ht, ?_⟩
      rw [← this, partError_token]

/-- C3, at a concrete input: in "1,x,9" on five files the first invalid token
    is "x", and the error names it. -/
theorem parseSelection_succeeds_iff_tokens_valid_witness :
    (parseSelection "1, x ,9".toList
        ["a".toList, "b".toList, "c".toList, "d".toList, "e".toList]).1 = [] ∧
    ∃ pre t post, Split "1, x ,9".toList ',' = pre ++ t :: post ∧
      (∀ p ∈ pre, validToken 5 (TrimSpace p)) ∧
      ¬ validToken 5 (TrimSpace t) ∧
      (SelError.invalidNumber "x".toList).token = TrimSpace t :=
  parseSelection_succeeds_iff_tokens_valid.2.1 "1, x ,9".toList
    ["a".toList, "b".toList, "c".toList, "d".toList, "e".toList]
    (.invalidNumber "x".toList) (by decide)

/-- C4: repeating a selection changes nothing: `e,e` gives the same result as
    `e`, the same list on success and the same error on failure; "2,2" and
    "2" on five files both give the second file alone. -/
theorem parseSelection_repeat_same :
    (∀ (e : Str) (files : List Str),
      parseSelection (e ++ ',' :: e) files = parseSelection e files) ∧
    (∀ f0 f1 f2 f3 f4 : Str,
      parseSelection "2,2".toList [f0, f1, f2, f3, f4] = ([f1], none) ∧
      parseSelection "2".toList [f0, f1, f2, f3, f4] = ([f1], none)) := by
  refine ⟨?_, fun _ _ _ _ _ => ⟨rfl, rfl⟩⟩
  intro e files
  unfold parseSelection
  rw [Split_append_sep, processParts_append]
  by_cases h : ∀ p ∈ Split e ',', validToken files.length (TrimSpace p)
  · rw [processParts_valid files _ _ h]
    simp only
    rw [processParts_valid files _ _ h, foldl_selectIndex_of_seen]
    intro i hi
    exact (mem_seen_foldl _ _ _ _).2 (Or.inl hi)
  · obtain ⟨pre, t, post, hs, hpre, ht⟩ := first_invalid _ _ h
    rw [hs, processParts_invalid files pre t post _ hpre ht]

/-! ## The file-name whitelist of the module updater -/

theorem GoStd.rdropWhile_append_rtakeWhile (p : Char → Bool) (l : Str) :
    l.rdropWhile p ++ l.rtakeWhile p = l := by
  have h := List.takeWhile_append_dropWhile p l.reverse
  have h2 := congrArg List.reverse h
  rw [List.reverse_append, List.reverse_reverse] at h2
  exact h2

theorem GoStd.Base_of_parts (dir name slashes : Str) (hname : name ≠ [])
    (hdir : ∀ h : dir ≠ [], dir.getLast h = '/') (hn : '/' ∉ name)
    (hs : ∀ c ∈ slashes, c = '/') :
    Base (dir ++ name ++ slashes) = name := by
  have hne : dir ++ name ++ slashes ≠ [] := by simp [hname]
  have hlast : ∀ h : name ≠ [], ¬ ((fun c : Char => c == '/') (name.getLast h)) = true := by
    intro h hc
    have : name.getLast h = '/' := by simpa using hc
    exact hn (this ▸ List.getLast_mem h)
  have h1 : (dir ++ name ++ slashes).rdropWhile (fun c => c == '/') = dir ++ name := by
    unfold List.rdropWhile
    rw [List.reverse_append, List.dropWhile_append_of_pos, ← List.rdropWhile,
      List.rdropWhile_eq_self_iff]
    · intro h
      rw [List.getLast_append_of_ne_nil hname]
      exact hlast hname
    · intro a ha
      simpa using hs a (List.mem_reverse.1 ha)
  have h2 : (dir ++ name).rtakeWhile (fun c => c != '/') = name := by
    unfold List.rtakeWhile
    rw [List.reverse_append, List.takeWhile_append_of_pos]
    · have h3 : dir.reverse.takeWhile (fun c => c != '/') = [] := by
        by_cases hd : dir = []
        · simp [hd]
        · have hl := hdir hd
          rw [← List.dropLast_append_getLast hd, hl]
          simp
      rw [h3]
      simp
    · intro a ha
      have hane : a ≠ '/' := fun e => hn (e ▸ List.mem_reverse.1 ha)
      simpa using hane
  unfold Base
  rw [if_neg hne]
  simp only [h1, h2, if_neg hname]

theorem GoStd.Base_parts (path : Str) :
    ∃ dir name slashes, path = dir ++ name ++ slashes ∧
      (∀ h : dir ≠ [], dir.getLast h = '/') ∧ '/' ∉ name ∧ (∀ c ∈ slashes, c = '/') ∧
      Base path = (if path = [] then ['.'] else if name = [] then ['/'] else name) := by
  refine ⟨(path.rdropWhile (fun c => c == '/')).rdropWhile (fun c => c != '/'),
    (path.rdropWhile (fun c => c == '/')).rtakeWhile (fun c => c != '/'),
    path.rtakeWhile (fun c => c == '/'), ?_, ?_, ?_, ?_, rfl⟩
  · rw [rdropWhile_append_rtakeWhile, rdropWhile_append_rtakeWhile]
  · intro h
    have := List.rdropWhile_last_not (fun c : Char => c != '/') _ h
    simpa using this
  · intro hmem
    have := List.mem_rtakeWhile_imp hmem
    simp at this
  · intro c hc
    have := List.mem_rtakeWhile_imp hc
    simpa using this

theorem GoStd.ToLower_dot (caseTable : Char → Char) : ToLower caseTable ['.'] = ['.'] := rfl

theorem GoStd.ToLower_slash (caseTable : Char → Char) : ToLower caseTable ['/'] = ['/'] := rfl

theorem GoStd.ToLower_eq_nil (caseTable : Char → Char) (s : Str) :
    ToLower caseTable s = [] ↔ s = [] := by
  simp [ToLower]

/-- C5: the whitelist check on an explicitly supplied `-f` path accepts the
    path exactly when its base name, lower-cased, is one of kyber.dll,
    vanillabundleaggregation.kb, ca_root.pem, vivoxsdk.dll; the base name is
    what is left of the path once the trailing slashes and the directory
    part are taken away; "/some/path/KYBER.DLL" is accepted and "evil.exe"
    is rejected. -/
theorem fileNameGate_accepts_iff_base_allowed :
    (∀ (caseTable : Char → Char) (fileName : Str),
      KyberUpdater.fileNameGate caseTable true fileName = true ↔
        (ToLower caseTable (Base fileName) = "kyber.dll".toList ∨
         ToLower caseTable (Base fileName) = "vanillabundleaggregation.kb".toList ∨
         ToLower caseTable (Base fileName) = "ca_root.pem".toList ∨
         ToLower caseTable (Base fileName) = "vivoxsdk.dll".toList)) ∧
    (∀ (caseTable : Char → Char) (fileName : Str),
      KyberUpdater.fileNameGate caseTable true fileName = true ↔
        ∃ dir name slashes, fileName = dir ++ name ++ slashes ∧
          (∀ h : dir ≠ [], dir.getLast h = '/') ∧ '/' ∉ name ∧
          (∀ c ∈ slashes, c = '/') ∧
          (ToLower caseTable name = "kyber.dll".toList ∨
           ToLower caseTable name = "vanillabundleaggregation.kb".toList ∨
           ToLower caseTable name = "ca_root.pem".toList ∨
           ToLower caseTable name = "vivoxsdk.dll".toList)) ∧
    (∀ caseTable : Char → Char,
      KyberUpdater.fileNameGate caseTable true "/some/path/KYBER.DLL".toList = true) ∧
    (∀ caseTable : Char → Char,
      KyberUpdater.fileNameGate caseTable true "evil.exe".toList = false) := by
  have hgate : ∀ (caseTable : Char → Char) (fileName : Str),
      KyberUpdater.fileNameGate caseTable true fileName = true ↔
        (ToLower caseTable (Base fileName) = "kyber.dll".toList ∨
         ToLower caseTable (Base fileName) = "vanillabundleaggregation.kb".toList ∨
         ToLower caseTable (Base fileName) = "ca_root.pem".toList ∨
         ToLower caseTable (Base fileName) = "vivoxsdk.dll".toList) := by
    intro caseTable fileName
    simp [KyberUpdater.fileNameGate, KyberUpdater.allowedFiles]
  refine ⟨hgate, ?_, fun _ => rfl, fun _ => rfl⟩
  intro caseTable fileName
  rw [hgate]
  constructor
  · intro h
    obtain ⟨dir, name, slashes, hp, hdir, hn, hs, hb⟩ := Base_parts fileName
    refine ⟨dir, name, slashes, hp, hdir, hn, hs, ?_⟩
    by_cases h1 : fileName = []
    · rw [hb, if_pos h1, ToLower_dot] at h
      exact absurd h (by decide)
    · rw [hb, if_neg h1] at h
      by_cases h2 : name = []
      · rw [if_pos h2, ToLower_slash] at h
        exact absurd h (by decide)
      · rw [if_neg h2] at h
        exact h
  · rintro ⟨dir, name, slashes, rfl, hdir, hn, hs, h⟩
    have hname : name ≠ [] := by
      intro e
      rw [e] at h
      revert h
      simp [ToLower]
    rw [Base_of_parts dir name slashes hname hdir hn hs]
    exact h

/-- C5, at a concrete input: the path "/some/path/KYBER.DLL" passes the gate,
    so its lower-cased base name is one of the four names. -/
theorem fileNameGate_accepts_iff_base_allowed_witness :
    ToLower id (Base "/some/path/KYBER.DLL".toList) = "kyber.dll".toList ∨
    ToLower id (Base "/some/path/KYBER.DLL".toList) = "vanillabundleaggregation.kb".toList ∨
    ToLower id (Base "/some/path/KYBER.DLL".toList) = "ca_root.pem".toList ∨
    ToLower id (Base "/some/path/KYBER.DLL".toList) = "vivoxsdk.dll".toList :=
  (fileNameGate_accepts_iff_base_allowed.1 id "/some/path/KYBER.DLL".toList).1 (by decide)

/-! ## Substrings of joined and quoted text -/

theorem GoStd.prefix_append_cons_of_not_mem (pat a b : Str) (c : Char) (hc : c ∉ pat)
    (h : pat <+: a ++ c :: b) : pat <+: a := by
  have h1 : a ++ [c] <+: a ++ c :: b := ⟨b, by simp⟩
  rcases List.prefix_or_prefix_of_prefix h h1 with h2 | h2
  · rcases List.prefix_concat_iff.1 h2 with e | h3
    · exact absurd (by rw [e]; simp) hc
    · exact h3
  · exact absurd (h2.subset (by simp)) hc

theorem GoStd.infix_append_cons_of_not_mem (pat a b : Str) (c : Char) (hc : c ∉ pat)
    (h : pat <:+: a ++ c :: b) : pat <:+: a ∨ pat <:+: b := by
  induction a with
  | nil =>
    rcases List.infix_cons_iff.1 h with h1 | h1
    · left
      exact (prefix_append_cons_of_not_mem pat [] b c hc h1).isInfix
    · right
      exact h1
  | cons x xs ih =>
    rw [List.cons_append] at h
    rcases List.infix_cons_iff.1 h with h1 | h1
    · left
      exact (prefix_append_cons_of_not_mem pat (x :: xs) b c hc h1).isInfix
    · rcases ih h1 with h2 | h2
      · left
        exact List.infix_cons h2
      · right
        exact h2

theorem GoStd.infix_Join (pat : Str) (parts : List Str) (c : Char) (hc : c ∉ pat)
    (h : pat <:+: Join parts [c]) : pat = [] ∨ ∃ p ∈ parts, pat <:+: p := by
  induction parts with
  | nil =>
    left
    simpa [Join] using h
  | cons a rest ih =>
    cases rest with
    | nil =>
      right
      exact ⟨a, by simp, by simpa [Join] using h⟩
    | cons b rest2 =>
      have h1 : pat <:+: a ++ c :: Join (b :: rest2) [c] := by
        simpa [Join] using h
      rcases infix_append_cons_of_not_mem pat a _ c hc h1 with h2 | h2
      · right
        exact ⟨a, by simp, h2⟩
      · rcases ih h2 with h3 | ⟨p, hp, h3⟩
        · left
          exact h3
        · right
          exact ⟨p, List.mem_cons_of_mem _ hp, h3⟩

theorem GoStd.infix_Join_of_mem (p : Str) (parts : List Str) (sep : Str)
    (h : p ∈ parts) : p <:+: Join parts sep := by
  induction parts with
  | nil => simp at h
  | cons a rest ih =>
    cases rest with
    | nil =>
      have : p = a := by simpa using h
      rw [this]
      exact List.infix_refl _
    | cons b rest2 =>
      rcases List.mem_cons.1 h with rfl | h1
      · exact ⟨[], sep ++ Join (b :: rest2) sep, by simp [Join]⟩
      · obtain ⟨s, t, hst⟩ := ih h1
        exact ⟨a ++ sep ++ s, t, by simp [Join, ← hst]⟩

theorem GoStd.prefix_ReplaceAll_quote (pat v : Str) (h1 : '"' ∉ pat) (h2 : '\\' ∉ pat)
    (h : pat <+: ReplaceAll v '"' ['\\', '"']) : pat <+: v := by
  induction v generalizing pat with
  | nil => simpa [ReplaceAll] using h
  | cons c cs ih =>
    cases pat with
    | nil => exact List.nil_prefix
    | cons x xs =>
      by_cases hc : c = '"'
      · subst hc
        simp only [ReplaceAll, if_true, List.cons_append, List.nil_append] at h
        have := (List.cons_prefix_cons.1 h).1
        exact absurd (by rw [this]; simp) h2
      · simp only [ReplaceAll, if_neg hc] at h
        obtain ⟨hx, hxs⟩ := List.cons_prefix_cons.1 h
        rw [hx]
        apply List.cons_prefix_cons.2
        refine ⟨rfl, ih xs ?_ ?_ hxs⟩
        · exact fun e => h1 (List.mem_cons_of_mem _ e)
        · exact fun e => h2 (List.mem_cons_of_mem _ e)

theorem GoStd.infix_ReplaceAll_quote (pat v : Str) (h1 : '"' ∉ pat) (h2 : '\\' ∉ pat)
    (h : pat <:+: ReplaceAll v '"' ['\\', '"']) : pat <:+: v := by
  induction v with
  | nil => simpa [ReplaceAll] using h
  | cons c cs ih =>
    by_cases hc : c = '"'
    · subst hc
      simp only [ReplaceAll, if_true, List.cons_append, List.nil_append] at h
      rcases infix_append_cons_of_not_mem pat [] _ '\\' h2 h with h3 | h3
      · have : pat = [] := by simpa using h3
        rw [this]
        exact List.nil_infix
      · rcases infix_append_cons_of_not_mem pat [] _ '"' h1 h3 with h4 | h4
        · have : pat = [] := by simpa using h4
          rw [this]
          exact List.nil_infix
        · exact List.infix_cons (ih h4)
    · simp only [ReplaceAll, if_neg hc] at h
      rcases List.infix_cons_iff.1 h with h3 | h3
      · have h4 : pat <+: ReplaceAll (c :: cs) '"' ['\\', '"'] := by
          simpa only [ReplaceAll, if_neg hc] using h3
        exact (prefix_ReplaceAll_quote pat (c :: cs) h1 h2 h4).isInfix
      · exact List.infix_cons (ih h3)

theorem KyberServerLauncher.infix_quote (pat v : Str) (h1 : '"' ∉ pat) (h2 : '\\' ∉ pat)
    (h : pat <:+: quote v) : pat <:+: v := by
  unfold quote at h
  have h3 : pat <:+: [] ++ '"' :: (ReplaceAll v '"' ['\\', '"'] ++ ['"']) := by
    simpa using h
  rcases infix_append_cons_of_not_mem pat [] _ '"' h1 h3 with h4 | h4
  · have : pat = [] := by simpa using h4
    rw [this]
    exact List.nil_infix
  · rcases infix_append_cons_of_not_mem pat _ [] '"' h1 h4 with h5 | h5
    · exact infix_ReplaceAll_quote pat v h1 h2 h5
    · have : pat = [] := by simpa using h5
      rw [this]
      exact List.nil_infix

/-! ## The launch command -/

theorem GoStd.not_infix_append_cons (pat lit v : Str) (c : Char)
    (hlit : ¬ pat <:+: lit) (hc : c ∉ pat) (hv : ¬ pat <:+: v) :
    ¬ pat <:+: lit ++ c :: v := by
  intro h
  rcases infix_append_cons_of_not_mem pat lit v c hc h with h1 | h1
  · exact hlit h1
  · exact hv h1

theorem GoStd.prefix_take_eq (p l : Str) (k : Nat) (h : p <+: l) (hk : k ≤ p.length) :
    l.take k = p.take k := by
  obtain ⟨t, rfl⟩ := h
  rw [List.take_append_of_le_length hk]

theorem KyberServerLauncher.buildParts_eq (cfg : Config) :
    buildParts cfg =
      (["docker run -it".toList, "--name".toList, cfg.ContainerName] ++
        (if cfg.RestartUnlessStopped then ["--restart=unless-stopped".toList] else []) ++
        ["-e MAXIMA_CREDENTIALS=".toList ++
            quote (cfg.MaximaEmail ++ ":".toList ++ cfg.MaximaPassword),
         "-e KYBER_TOKEN=".toList ++ cfg.KyberToken,
         "-e KYBER_SERVER_NAME=".toList ++ quote cfg.ServerName,
         "-e KYBER_SERVER_MAX_PLAYERS=".toList ++ cfg.MaxPlayers]) ++
      ["-e KYBER_MAP_ROTATION=".toList ++ cfg.MapRotation] ++
      (if cfg.ModuleChannel ≠ "main".toList then
        ["-e KYBER_MODULE_CHANNEL=".toList ++ cfg.ModuleChannel] else []) ++
      ((if cfg.ServerDescription ≠ [] then
          ["-e KYBER_SERVER_DESCRIPTION=".toList ++ quote cfg.ServerDescription] else []) ++
        (if cfg.ServerPassword ≠ [] then
          ["-e KYBER_SERVER_PASSWORD=".toList ++ quote cfg.ServerPassword] else []) ++
        ["-v ".toList ++ quote (cfg.GameDataPath ++ ":/mnt/battlefront".toList)] ++
        (if cfg.ModFolderPath ≠ [] then
          ["-v ".toList ++ quote cfg.ModFolderPath ++ ":/mnt/battlefront/mods".toList,
           "-e KYBER_MOD_FOLDER=/mnt/battlefront/mods".toList] else []) ++
        (if cfg.PluginFolderPath ≠ [] then
          ["-v ".toList ++ quote cfg.PluginFolderPath ++ ":/mnt/battlefront/plugins".toList,
           "-e KYBER_SERVER_PLUGINS_PATH=/mnt/battlefront/plugins".toList] else []) ++
        [imageName]) := by
  unfold buildParts
  by_cases h1 : cfg.RestartUnlessStopped = true <;>
  by_cases h2 : cfg.ModuleChannel = "main".toList <;>
  by_cases h3 : cfg.ServerDescription = [] <;>
  by_cases h4 : cfg.ServerPassword = [] <;>
  by_cases h5 : cfg.ModFolderPath = [] <;>
  by_cases h6 : cfg.PluginFolderPath = [] <;>
  simp only [h1, h2, h3, h4, h5, h6, if_true, if_false, ne_eq, not_true_eq_false,
    not_false_eq_true, Bool.false_eq_true] <;>
  rfl

theorem GoStd.mem_of_mem_ite_nil (c : Prop) [Decidable c] (l : List Str) (p : Str)
    (h : p ∈ if c then l else []) : p ∈ l := by
  by_cases hc : c
  · rwa [if_pos hc] at h
  · rw [if_neg hc] at h
    simp at h

theorem KyberServerLauncher.not_infix_quote (pat v : Str) (h1 : '"' ∉ pat)
    (h2 : '\\' ∉ pat) (h : ¬ pat <:+: v) : ¬ pat <:+: quote v :=
  fun hq => h (infix_quote pat v h1 h2 hq)

/-- The text the module-channel claim is about. -/
theorem KyberServerLauncher.channel_text_chars :
    ' ' ∉ "KYBER_MODULE_CHANNEL".toList ∧ '=' ∉ "KYBER_MODULE_CHANNEL".toList ∧
    ':' ∉ "KYBER_MODULE_CHANNEL".toList ∧ '"' ∉ "KYBER_MODULE_CHANNEL".toList ∧
    '\\' ∉ "KYBER_MODULE_CHANNEL".toList := by
  decide

theorem KyberServerLauncher.no_channel_text_of_main (cfg : Config)
    (hmain : cfg.ModuleChannel = "main".toList)
    (hfields : ∀ f ∈ [cfg.ContainerName, cfg.MaximaEmail, cfg.MaximaPassword,
        cfg.KyberToken, cfg.ServerName, cfg.ServerDescription, cfg.ServerPassword,
        cfg.MaxPlayers, cfg.MapRotation, cfg.GameDataPath, cfg.ModFolderPath,
        cfg.PluginFolderPath], ¬ "KYBER_MODULE_CHANNEL".toList <:+: f) :
    ¬ "KYBER_MODULE_CHANNEL".toList <:+: buildDockerCommand cfg := by
  obtain ⟨hsp, heq, hcol, hq, hbs⟩ := channel_text_chars
  intro h
  unfold buildDockerCommand at h
  have hsep : " ".toList = [' '] := rfl
  rw [hsep] at h
  rcases infix_Join _ _ ' ' hsp h with h0 | ⟨p, hp, hin⟩
  · exact absurd h0 (by decide)
  · revert hin
    rw [buildParts_eq] at hp
    simp only [hmain, ne_eq, not_true_eq_false, if_false, List.mem_append, List.mem_cons,
      List.mem_singleton, List.not_mem_nil, or_false, false_or] at hp
    have hC := hfields cfg.ContainerName (by simp)
    have hE := hfields cfg.MaximaEmail (by simp)
    have hP := hfields cfg.MaximaPassword (by simp)
    have hT := hfields cfg.KyberToken (by simp)
    have hN := hfields cfg.ServerName (by simp)
    have hD := hfields cfg.ServerDescription (by simp)
    have hW := hfields cfg.ServerPassword (by simp)
    have hM := hfields cfg.MaxPlayers (by simp)
    have hR := hfields cfg.MapRotation (by simp)
    have hG := hfields cfg.GameDataPath (by simp)
    have hF := hfields cfg.ModFolderPath (by simp)
    have hL := hfields cfg.PluginFolderPath (by simp)
    have hcreds : ¬ "KYBER_MODULE_CHANNEL".toList <:+:
        "-e MAXIMA_CREDENTIALS=".toList ++
          quote (cfg.MaximaEmail ++ ":".toList ++ cfg.MaximaPassword) :=
      not_infix_append_cons _ "-e MAXIMA_CREDENTIALS".toList _ '=' (by decide) heq
        (not_infix_quote _ _ hq hbs
          (by
            have e : cfg.MaximaEmail ++ ":".toList ++ cfg.MaximaPassword =
                cfg.MaximaEmail ++ ':' :: cfg.MaximaPassword := by
              simp
            rw [e]
            exact not_infix_append_cons _ _ _ ':' hE hcol hP))
    have htok : ¬ "KYBER_MODULE_CHANNEL".toList <:+:
        "-e KYBER_TOKEN=".toList ++ cfg.KyberToken :=
      not_infix_append_cons _ "-e KYBER_TOKEN".toList _ '=' (by decide) heq hT
    have hname : ¬ "KYBER_MODULE_CHANNEL".toList <:+:
        "-e KYBER_SERVER_NAME=".toList ++ quote cfg.ServerName :=
      not_infix_append_cons _ "-e KYBER_SERVER_NAME".toList _ '=' (by decide) heq
        (not_infix_quote _ _ hq hbs hN)
    have hmax : ¬ "KYBER_MODULE_CHANNEL".toList <:+:
        "-e KYBER_SERVER_MAX_PLAYERS=".toList ++ cfg.MaxPlayers :=
      not_infix_append_cons _ "-e KYBER_SERVER_MAX_PLAYERS".toList _ '=' (by decide) heq hM
    have hrot : ¬ "KYBER_MODULE_CHANNEL".toList <:+:
        "-e KYBER_MAP_ROTATION=".toList ++ cfg.MapRotation :=
      not_infix_append_cons _ "-e KYBER_MAP_ROTATION".toList _ '=' (by decide) heq hR
    have hdesc : ¬ "KYBER_MODULE_CHANNEL".toList <:+:
        "-e KYBER_SERVER_DESCRIPTION=".toList ++ quote cfg.ServerDescription :=
      not_infix_append_cons _ "-e KYBER_SERVER_DESCRIPTION".toList _ '=' (by decide) heq
        (not_infix_quote _ _ hq hbs hD)
    have hpw : ¬ "KYBER_MODULE_CHANNEL".toList <:+:
        "-e KYBER_SERVER_PASSWORD=".toList ++ quote cfg.ServerPassword :=
      not_infix_append_cons _ "-e KYBER_SERVER_PASSWORD".toList _ '=' (by decide) heq
        (not_infix_quote _ _ hq hbs hW)
    have hgame : ¬ "KYBER_MODULE_CHANNEL".toList <:+:
        "-v ".toList ++ quote (cfg.GameDataPath ++ ":/mnt/battlefront".toList) :=
      not_infix_append_cons _ "-v".toList _ ' ' (by decide) hsp
        (not_infix_quote _ _ hq hbs
          (not_infix_append_cons _ _ "/mnt/battlefront".toList ':' hG hcol (by decide)))
    have hmod : ¬ "KYBER_MODULE_CHANNEL".toList <:+:
        "-v ".toList ++ quote cfg.ModFolderPath ++ ":/mnt/battlefront/mods".toList :=
      not_infix_append_cons _ ("-v ".toList ++ quote cfg.ModFolderPath)
        "/mnt/battlefront/mods".toList ':'
        (not_infix_append_cons _ "-v".toList _ ' ' (by decide) hsp
          (not_infix_quote _ _ hq hbs hF)) hcol (by decide)
    have hplug : ¬ "KYBER_MODULE_CHANNEL".toList <:+:
        "-v ".toList ++ quote cfg.PluginFolderPath ++ ":/mnt/battlefront/plugins".toList :=
      not_infix_append_cons _ ("-v ".toList ++ quote cfg.PluginFolderPath)
        "/mnt/battlefront/plugins".toList ':'
        (not_infix_append_cons _ "-v".toList _ ' ' (by decide) hsp
          (not_infix_quote _ _ hq hbs hL)) hcol (by decide)
    intro hin
    rcases hp with ((((h1 | h1 | h1) | h1) | h1 | h1 | h1 | h1) | h1) |
      (((((h1 | h1) | h1) | h1) | h1) | h1)
    · rw [h1] at hin; exact absurd hin (by decide)
    · rw [h1] at hin; exact absurd hin (by decide)
    · rw [h1] at hin; exact hC hin
    · have h2 := mem_of_mem_ite_nil _ _ _ h1
      rw [List.mem_singleton] at h2
      rw [h2] at hin; exact absurd hin (by decide)
    · rw [h1] at hin; exact hcreds hin
    · rw [h1] at hin; exact htok hin
    · rw [h1] at hin; exact hname hin
    · rw [h1] at hin; exact hmax hin
    · rw [h1] at hin; exact hrot hin
    · have h2 := mem_of_mem_ite_nil _ _ _ h1
      rw [List.mem_singleton] at h2
      rw [h2] at hin; exact hdesc hin
    · have h2 := mem_of_mem_ite_nil _ _ _ h1
      rw [List.mem_singleton] at h2
      rw [h2] at hin; exact hpw hin
    · rw [h1] at hin; exact hgame hin
    · have h2 := mem_of_mem_ite_nil _ _ _ h1
      rcases List.mem_cons.1 h2 with h3 | h3
      · rw [h3] at hin; exact hmod hin
      · rw [List.mem_singleton] at h3
        rw [h3] at hin; exact absurd hin (by decide)
    · have h2 := mem_of_mem_ite_nil _ _ _ h1
      rcases List.mem_cons.1 h2 with h3 | h3
      · rw [h3] at hin; exact hplug hin
      · rw [List.mem_singleton] at h3
        rw [h3] at hin; exact absurd hin (by decide)
    · rw [h1] at hin; exact absurd hin (by decide)

theorem GoStd.not_prefix_of_take (pfx l : Str) (k : Nat) (hk : k ≤ pfx.length)
    (hne : l.take k ≠ pfx.take k) : ¬ pfx <+: l :=
  fun h => hne (prefix_take_eq pfx l k h hk)

theorem KyberServerLauncher.tail_parts_not_channel (cfg : Config) :
    ∀ p ∈ ((if cfg.ServerDescription ≠ [] then
          ["-e KYBER_SERVER_DESCRIPTION=".toList ++ quote cfg.ServerDescription] else []) ++
        (if cfg.ServerPassword ≠ [] then
          ["-e KYBER_SERVER_PASSWORD=".toList ++ quote cfg.ServerPassword] else []) ++
        ["-v ".toList ++ quote (cfg.GameDataPath ++ ":/mnt/battlefront".toList)] ++
        (if cfg.ModFolderPath ≠ [] then
          ["-v ".toList ++ quote cfg.ModFolderPath ++ ":/mnt/battlefront/mods".toList,
           "-e KYBER_MOD_FOLDER=/mnt/battlefront/mods".toList] else []) ++
        (if cfg.PluginFolderPath ≠ [] then
          ["-v ".toList ++ quote cfg.PluginFolderPath ++ ":/mnt/battlefront/plugins".toList,
           "-e KYBER_SERVER_PLUGINS_PATH=/mnt/battlefront/plugins".toList] else []) ++
        [imageName]),
      ¬ "-e KYBER_MODULE_CHANNEL=".toList <+: p := by
  intro p hp
  simp only [List.mem_append, List.mem_singleton] at hp
  rcases hp with ((((h1 | h1) | h1) | h1) | h1) | h1
  · have h2 := mem_of_mem_ite_nil _ _ _ h1
    rw [List.mem_singleton] at h2
    rw [h2]
    apply not_prefix_of_take _ _ 10 (by decide)
    rw [show List.take 10 ("-e KYBER_SERVER_DESCRIPTION=".toList ++ quote cfg.ServerDescription)
      = "-e KYBER_S".toList from rfl]
    decide
  · have h2 := mem_of_mem_ite_nil _ _ _ h1
    rw [List.mem_singleton] at h2
    rw [h2]
    apply not_prefix_of_take _ _ 10 (by decide)
    rw [show List.take 10 ("-e KYBER_SERVER_PASSWORD=".toList ++ quote cfg.ServerPassword)
      = "-e KYBER_S".toList from rfl]
    decide
  · rw [h1]
    apply not_prefix_of_take _ _ 2 (by decide)
    rw [show List.take 2 ("-v ".toList ++ quote (cfg.GameDataPath ++ ":/mnt/battlefront".toList))
      = "-v".toList from rfl]
    decide
  · have h2 := mem_of_mem_ite_nil _ _ _ h1
    rcases List.mem_cons.1 h2 with h3 | h3
    · rw [h3]
      apply not_prefix_of_take _ _ 2 (by decide)
      rw [show List.take 2 ("-v ".toList ++ quote cfg.ModFolderPath ++
        ":/mnt/battlefront/mods".toList) = "-v".toList from rfl]
      decide
    · rw [List.mem_singleton] at h3
      rw [h3]
      decide
  · have h2 := mem_of_mem_ite_nil _ _ _ h1
    rcases List.mem_cons.1 h2 with h3 | h3
    · rw [h3]
      apply not_prefix_of_take _ _ 2 (by decide)
      rw [show List.take 2 ("-v ".toList ++ quote cfg.PluginFolderPath ++
        ":/mnt/battlefront/plugins".toList) = "-v".toList from rfl]
      decide
    · rw [List.mem_singleton] at h3
      rw [h3]
      decide
  · rw [h1]
    decide

/-- C6: buildDockerCommand puts the part `-e KYBER_MODULE_CHANNEL=<channel>`
    right after the map-rotation binding and before the description binding
    exactly when the channel differs from "main"; with "main" and no other
    field holding the text KYBER_MODULE_CHANNEL the output does not hold it,
    and with "beta" the output holds `-e KYBER_MODULE_CHANNEL=beta`. -/
theorem buildDockerCommand_module_channel_binding :
    (∀ cfg : Config, ∃ pre post : List Str,
      buildParts cfg =
        pre ++ ["-e KYBER_MAP_ROTATION=".toList ++ cfg.MapRotation] ++
          (if cfg.ModuleChannel ≠ "main".toList then
            ["-e KYBER_MODULE_CHANNEL=".toList ++ cfg.ModuleChannel] else []) ++ post ∧
      pre.length = (if cfg.RestartUnlessStopped then 8 else 7) ∧
      (cfg.ServerDescription ≠ [] →
        post.head? =
          some ("-e KYBER_SERVER_DESCRIPTION=".toList ++ quote cfg.ServerDescription)) ∧
      (∀ p ∈ post, ¬ "-e KYBER_MODULE_CHANNEL=".toList <+: p)) ∧
    (∀ cfg : Config, cfg.ModuleChannel ≠ "main".toList →
      ("-e KYBER_MODULE_CHANNEL=".toList ++ cfg.ModuleChannel) <:+: buildDockerCommand cfg) ∧
    (∀ cfg : Config, cfg.ModuleChannel = "main".toList →
      (∀ f ∈ [cfg.ContainerName, cfg.MaximaEmail, cfg.MaximaPassword, cfg.KyberToken,
          cfg.ServerName, cfg.ServerDescription, cfg.ServerPassword, cfg.MaxPlayers,
          cfg.MapRotation, cfg.GameDataPath, cfg.ModFolderPath, cfg.PluginFolderPath],
        ¬ "KYBER_MODULE_CHANNEL".toList <:+: f) →
      ¬ "KYBER_MODULE_CHANNEL".toList <:+: buildDockerCommand cfg) ∧
    (∀ cfg : Config, cfg.ModuleChannel = "beta".toList →
      "-e KYBER_MODULE_CHANNEL=beta".toList <:+: buildDockerCommand cfg) := by
  have hgen : ∀ cfg : Config, cfg.ModuleChannel ≠ "main".toList →
      ("-e KYBER_MODULE_CHANNEL=".toList ++ cfg.ModuleChannel) <:+: buildDockerCommand cfg := by
    intro cfg hch
    apply infix_Join_of_mem
    rw [buildParts_eq, if_pos hch]
    simp
  refine ⟨?_, hgen, no_channel_text_of_main, ?_⟩
  · intro cfg
    refine ⟨_, _, buildParts_eq cfg, ?_, ?_, tail_parts_not_channel cfg⟩
    · by_cases hr : cfg.RestartUnlessStopped = true <;> simp [hr]
    · intro hd
      simp [hd]
  · intro cfg hb
    have hne : cfg.ModuleChannel ≠ "main".toList := by
      rw [hb]
      decide
    have := hgen cfg hne
    rw [hb] at this
    exact this

/-- C6, at the sample configuration, whose channel is "main". -/
theorem buildDockerCommand_module_channel_binding_witness :
    ¬ "KYBER_MODULE_CHANNEL".toList <:+: buildDockerCommand sampleConfig :=
  buildDockerCommand_module_channel_binding.2.2.1 sampleConfig (by decide) (by decide)

/-! ## Quoting -/

theorem KyberServerLauncher.quote_eq_quoted (v : Str) : quote v = quoted v := by
  unfold quote quoted
  congr 2
  induction v with
  | nil => rfl
  | cons c cs ih =>
    by_cases hc : c = '"'
    · simp [ReplaceAll, hc, ← ih]
    · simp [ReplaceAll, hc, ← ih]

theorem ShellModel.readQuotedBody_closing (rest : Str) :
    readQuotedBody ('"' :: rest) = some ([], rest) := by
  rw [readQuotedBody.eq_def]
  rfl

theorem ShellModel.readQuotedBody_escaped_quote (rest : Str) :
    readQuotedBody ('\\' :: '"' :: rest) =
      (readQuotedBody rest).map (fun p => ('"' :: p.1, p.2)) := by
  rw [readQuotedBody.eq_def]
  rfl

theorem ShellModel.readQuotedBody_plain (c : Char) (rest : Str) (h1 : c ≠ '"')
    (h2 : c ≠ '\\') :
    readQuotedBody (c :: rest) = (readQuotedBody rest).map (fun p => (c :: p.1, p.2)) := by
  rw [readQuotedBody.eq_def]
  simp only [h1, h2, if_false]

theorem ShellModel.readQuotedBody_ReplaceAll (s rest : Str) (h : '\\' ∉ s) :
    readQuotedBody (ReplaceAll s '"' ['\\', '"'] ++ '"' :: rest) = some (s, rest) := by
  induction s with
  | nil => exact readQuotedBody_closing rest
  | cons c cs ih =>
    have hcs : '\\' ∉ cs := fun e => h (List.mem_cons_of_mem _ e)
    have hc : c ≠ '\\' := fun e => h (by simp [e])
    by_cases hq : c = '"'
    · subst hq
      simp only [ReplaceAll, if_true, List.cons_append, List.nil_append]
      rw [readQuotedBody_escaped_quote, ih hcs]
      rfl
    · simp only [ReplaceAll, if_neg hq, List.cons_append]
      rw [readQuotedBody_plain c _ hq hc, ih hcs]
      rfl

/-- Where quote is sound: a text without a backslash is read back whole, as
    one closed double-quoted word. -/
theorem KyberServerLauncher.quote_read_back_of_no_backslash (s : Str) (h : '\\' ∉ s) :
    readQuotedWord (quote s) = some (s, []) := by
  unfold quote
  simp only [List.singleton_append, List.append_assoc, readQuotedWord, if_true]
  exact readQuotedBody_ReplaceAll s [] h

/-- C7 (the code departs from it): the launch command carries
    `KYBER_SERVER_NAME=` followed by `quote(name)`, and quote leaves a
    backslash as it is; for the name `a\` the quoted word is `"a\"`, which a
    shell reading double-quote rules never sees closed, and for `a\\b` the
    word reads back as `a\b`, not the name. -/
theorem quote_backslash_not_read_back :
    (∀ cfg : Config,
      ("-e KYBER_SERVER_NAME=".toList ++ quote cfg.ServerName) ∈ buildParts cfg) ∧
    quote ['a', '\\'] = ['"', 'a', '\\', '"'] ∧
    readQuotedWord (quote ['a', '\\']) = none ∧
    quote ['a', '\\', '\\', 'b'] = ['"', 'a', '\\', '\\', 'b', '"'] ∧
    readQuotedWord (quote ['a', '\\', '\\', 'b']) = some (['a', '\\', 'b'], []) := by
  refine ⟨?_, by decide, by decide, by decide, by decide⟩
  intro cfg
  rw [buildParts_eq]
  simp

set_option maxRecDepth 100000 in
/-- C8 as stated fails: the sample configuration has the map rotation `QUJD`;
    the command carries the part `-e KYBER_MAP_ROTATION=QUJD`, and the quoted
    payload `"QUJD"` occurs nowhere in it. -/
theorem mapRotation_emitted_unquoted :
    ¬ (quote sampleConfig.MapRotation <:+: buildDockerCommand sampleConfig) ∧
    ("-e KYBER_MAP_ROTATION=".toList ++ quote sampleConfig.MapRotation)
      ∉ buildParts sampleConfig ∧
    "-e KYBER_MAP_ROTATION=QUJD".toList ∈ buildParts sampleConfig := by
  decide

/-- C8, amended: buildDockerCommand emits in quoted form the credential
    string `email:password`, the server name, the description and the
    password when non-empty and the game-data mount `hostPath:/mnt/battlefront`;
    the map-rotation payload, max players and the image reference are emitted
    as they are; every part is a piece of the command. -/
theorem buildDockerCommand_quoted_values :
    (∀ v : Str, quote v = quoted v) ∧
    (∀ cfg : Config,
      ("-e MAXIMA_CREDENTIALS=".toList ++
          quoted (cfg.MaximaEmail ++ ":".toList ++ cfg.MaximaPassword)) ∈ buildParts cfg ∧
      ("-e KYBER_SERVER_NAME=".toList ++ quoted cfg.ServerName) ∈ buildParts cfg ∧
      (cfg.ServerDescription ≠ [] →
        ("-e KYBER_SERVER_DESCRIPTION=".toList ++ quoted cfg.ServerDescription)
          ∈ buildParts cfg) ∧
      (cfg.ServerPassword ≠ [] →
        ("-e KYBER_SERVER_PASSWORD=".toList ++ quoted cfg.ServerPassword)
          ∈ buildParts cfg) ∧
      ("-v ".toList ++ quoted (cfg.GameDataPath ++ ":/mnt/battlefront".toList))
        ∈ buildParts cfg ∧
      ("-e KYBER_MAP_ROTATION=".toList ++ cfg.MapRotation) ∈ buildParts cfg ∧
      ("-e KYBER_SERVER_MAX_PLAYERS=".toList ++ cfg.MaxPlayers) ∈ buildParts cfg ∧
      (buildParts cfg).getLast? = some imageName ∧
      (∀ p ∈ buildParts cfg, p <:+: buildDockerCommand cfg)) := by
  refine ⟨quote_eq_quoted, ?_⟩
  intro cfg
  simp only [← quote_eq_quoted]
  refine ⟨?_, ?_, ?_, ?_, ?_, ?_, ?_, ?_, ?_⟩
  · rw [buildParts_eq]; simp
  · rw [buildParts_eq]; simp
  · intro h; rw [buildParts_eq]; simp [h]
  · intro h; rw [buildParts_eq]; simp [h]
  · rw [buildParts_eq]; simp
  · rw [buildParts_eq]; simp
  · rw [buildParts_eq]; simp
  · have h : ∃ init, buildParts cfg = init ++ [imageName] := by
      unfold buildParts
      exact ⟨_, rfl⟩
    obtain ⟨init, hinit⟩ := h
    rw [hinit]
    simp
  · intro p hp
    exact infix_Join_of_mem p _ _ hp

/-- C8, amended, at the sample configuration, whose description holds
    double quotes. -/
theorem buildDockerCommand_quoted_values_witness :
    "-e KYBER_SERVER_DESCRIPTION=\"say \\\"hi\\\"\"".toList ∈ buildParts sampleConfig :=
  (buildDockerCommand_quoted_values.2 sampleConfig).2.2.1 (by decide)

/-! ## The container-name prompt -/

theorem LauncherSpec.inNameClass_iff_toNat (c : Char) :
    inNameClass c ↔
      ((97 ≤ c.toNat ∧ c.toNat ≤ 122) ∨ (48 ≤ c.toNat ∧ c.toNat ≤ 57) ∨
        c.toNat = 46 ∨ c.toNat = 95 ∨ c.toNat = 45) := by
  have heq : ∀ (d : Char), c = d ↔ c.toNat = d.toNat := by
    intro d
    constructor
    · rintro rfl; rfl
    · intro h
      apply Char.ext
      apply UInt32.ext
      simpa [Char.toNat] using h
  unfold inNameClass
  rw [heq '.', heq '_', heq '-']
  exact Iff.rfl

theorem KyberServerLauncher.allowedRune_iff (c : Char) :
    allowedRune c = true ↔ inNameClass c := by
  have heq : ∀ (d : Char), c = d ↔ c.toNat = d.toNat := by
    intro d
    constructor
    · rintro rfl; rfl
    · intro h
      apply Char.ext
      apply UInt32.ext
      simpa [Char.toNat] using h
  rw [inNameClass_iff_toNat]
  unfold allowedRune
  simp only [Bool.or_eq_true, Bool.and_eq_true, decide_eq_true_eq, beq_iff_eq, heq '-',
    heq '_', heq '.']
  have h1 : ('-' : Char).toNat = 45 := rfl
  have h2 : ('_' : Char).toNat = 95 := rfl
  have h3 : ('.' : Char).toNat = 46 := rfl
  rw [h1, h2, h3]
  tauto

theorem LauncherSpec.not_isSpace_of_inNameClass (c : Char) (h : inNameClass c) :
    isSpace c = false := by
  rw [inNameClass_iff_toNat] at h
  unfold isSpace
  simp only [Bool.or_eq_false_iff, Bool.and_eq_false_imp, beq_eq_false_iff_ne,
    decide_eq_true_eq, decide_eq_false_iff_not, ne_eq]
  omega

theorem KyberServerLauncher.promptContainerName_cons (line : Str) (rest : List Str) :
    promptContainerName (line :: rest) =
      if matchesNameClass (TrimSpace line) then some (TrimSpace line, rest)
      else promptContainerName rest := by
  rw [promptContainerName]
  by_cases h1 : TrimSpace line = []
  · have : ¬ matchesNameClass (TrimSpace line) := fun h => h.1 h1
    rw [if_pos h1, if_neg this]
  · rw [if_neg h1]
    by_cases h2 : Contains (TrimSpace line) " ".toList = true
    · have hsp : ' ' ∈ TrimSpace line := (contains_singleton _ _).1 h2
      have : ¬ matchesNameClass (TrimSpace line) := by
        intro h
        have := h.2 ' ' hsp
        revert this
        decide
      rw [if_pos h2, if_neg this]
    · rw [if_neg h2]
      by_cases h3 : (TrimSpace line).all allowedRune = true
      · have : matchesNameClass (TrimSpace line) := by
          refine ⟨h1, ?_⟩
          intro c hc
          exact (allowedRune_iff c).1 (List.all_eq_true.1 h3 c hc)
        rw [if_pos h3, if_pos this]
      · have : ¬ matchesNameClass (TrimSpace line) := by
          intro h
          apply h3
          rw [List.all_eq_true]
          intro c hc
          exact (allowedRune_iff c).2 (h.2 c hc)
        rw [if_neg h3, if_neg this]

theorem KyberServerLauncher.promptContainerName_skips (pre : List Str) (lines : List Str)
    (h : ∀ l ∈ pre, ¬ matchesNameClass (TrimSpace l)) :
    promptContainerName (pre ++ lines) = promptContainerName lines := by
  induction pre with
  | nil => rfl
  | cons l ls ih =>
    rw [List.cons_append, promptContainerName_cons, if_neg (h l (by simp))]
    exact ih (fun x hx => h x (List.mem_cons_of_mem _ hx))

theorem KyberServerLauncher.promptContainerName_some (lines : List Str) (name : Str)
    (rest : List Str) (h : promptContainerName lines = some (name, rest)) :
    ∃ pre line, lines = pre ++ line :: rest ∧ name = TrimSpace line ∧
      matchesNameClass name ∧ ∀ l ∈ pre, ¬ matchesNameClass (TrimSpace l) := by
  induction lines with
  | nil => simp [promptContainerName] at h
  | cons l ls ih =>
    rw [promptContainerName_cons] at h
    by_cases hv : matchesNameClass (TrimSpace l)
    · rw [if_pos hv] at h
      have h2 : TrimSpace l = name ∧ ls = rest := by simpa using h
      obtain ⟨h3, h4⟩ := h2
      subst h3 h4
      exact ⟨[], l, rfl, rfl, hv, by simp⟩
    · rw [if_neg hv] at h
      obtain ⟨pre, line, h1, h2, h3, h4⟩ := ih h
      refine ⟨l :: pre, line, by rw [h1]; rfl, h2, h3, ?_⟩
      intro x hx
      rcases List.mem_cons.1 hx with rfl | hx
      · exact hv
      · exact h4 x hx

/-- C9: promptContainerName returns the first line that, once trimmed, is
    non-empty and made only of a-z, 0-9, '.', '_' and '-', passing over every
    earlier line that is not; so every returned name is non-empty, holds no
    white space and matches `[a-z0-9._-]+`; no name is returned exactly when
    no line passes. -/
theorem promptContainerName_first_valid_line :
    (∀ (pre : List Str) (line : Str) (post : List Str),
      (∀ l ∈ pre, ¬ matchesNameClass (TrimSpace l)) →
      matchesNameClass (TrimSpace line) →
      promptContainerName (pre ++ line :: post) = some (TrimSpace line, post)) ∧
    (∀ (lines : List Str) (name : Str) (rest : List Str),
      promptContainerName lines = some (name, rest) →
      matchesNameClass name ∧ (∀ c ∈ name, isSpace c = false) ∧
      ∃ pre line, lines = pre ++ line :: rest ∧ name = TrimSpace line ∧
        ∀ l ∈ pre, ¬ matchesNameClass (TrimSpace l)) ∧
    (∀ lines : List Str,
      promptContainerName lines = none ↔
        ∀ l ∈ lines, ¬ matchesNameClass (TrimSpace l)) := by
  refine ⟨?_, ?_, ?_⟩
  · intro pre line post hpre hline
    rw [promptContainerName_skips pre _ hpre, promptContainerName_cons, if_pos hline]
  · intro lines name rest h
    obtain ⟨pre, line, h1, h2, h3, h4⟩ := promptContainerName_some lines name rest h
    exact ⟨h3, fun c hc => not_isSpace_of_inNameClass c (h3.2 c hc), pre, line, h1, h2, h4⟩
  · intro lines
    induction lines with
    | nil => simp [promptContainerName]
    | cons l ls ih =>
      rw [promptContainerName_cons]
      by_cases hv : matchesNameClass (TrimSpace l)
      · rw [if_pos hv]
        simp only [reduceCtorEq, false_iff]
        intro hall
        exact hall l (by simp) hv
      · rw [if_neg hv, ih]
        constructor
        · intro hall x hx
          rcases List.mem_cons.1 hx with rfl | hx
          · exact hv
          · exact hall x hx
        · intro hall x hx
          exact hall x (List.mem_cons_of_mem _ hx)

/-- C9, at a concrete input: a blank line, a name with a capital and a space,
    then a good name padded with white space. -/
theorem promptContainerName_first_valid_line_witness :
    promptContainerName
        [" \n".toList, "My Server\n".toList, "  kyber-1.a_b\r\n".toList, "later\n".toList] =
      some ("kyber-1.a_b".toList, ["later\n".toList]) :=
  promptContainerName_first_valid_line.1 [" \n".toList, "My Server\n".toList]
    "  kyber-1.a_b\r\n".toList ["later\n".toList] (by decide) (by decide)

/-! ## The container-existence probes -/

theorem KyberLogManager.containerExists_trimmed_iff (output container : Str) :
    (KyberLogManager.containerExists (.ok output) container).1 = true ↔
      ∃ line ∈ Split output '\n', TrimSpace line = container := by
  simp [KyberLogManager.containerExists]

theorem KyberUpdater.containerExists_untrimmed_iff (output container : Str) :
    (KyberUpdater.containerExists (.ok output) container).1 = true ↔
      ∃ line ∈ Split output '\n', line = container := by
  simp [KyberUpdater.containerExists]

/-- The two probes agree on a listing whose lines carry no surrounding white
    space. -/
theorem containerExists_agree_of_trimmed_lines (output container : Str)
    (h : ∀ line ∈ Split output '\n', TrimSpace line = line) :
    KyberLogManager.containerExists (.ok output) container =
      KyberUpdater.containerExists (.ok output) container := by
  unfold KyberLogManager.containerExists KyberUpdater.containerExists
  simp only [Prod.mk.injEq, and_true]
  rw [Bool.eq_iff_iff, List.any_eq_true, List.any_eq_true]
  constructor
  · rintro ⟨line, hline, hd⟩
    exact ⟨line, hline, by rw [h line hline] at hd; exact hd⟩
  · rintro ⟨line, hline, hd⟩
    exact ⟨line, hline, by rw [h line hline]; exact hd⟩

/-- C10 (the code departs from it): on the listing "kyber1\r\n" and the name
    "kyber1" a line trims to the name, the log manager reports the container
    as existing and the module updater, which compares untrimmed lines,
    reports that it does not exist. -/
theorem containerExists_updater_compares_untrimmed :
    (∃ line ∈ Split "kyber1\r\n".toList '\n', TrimSpace line = "kyber1".toList) ∧
    KyberLogManager.containerExists (.ok "kyber1\r\n".toList) "kyber1".toList = (true, none) ∧
    KyberUpdater.containerExists (.ok "kyber1\r\n".toList) "kyber1".toList = (false, none) := by
  refine ⟨⟨"kyber1\r".toList, by decide, by decide⟩, by decide, by decide⟩

